import Mathlib

/-!
Verification of the PRQL AST fold engine (`prql-compiler/src/ast/ast_fold.rs`).

The repository file under verification is the traversal layer only; the tree
node types (`Expr`, `Stmt`, `Transform`, …) live in sibling modules that are
not part of the sources, so they are modelled from the specification's data
model (spec §3) and from how the fold code destructures them.  Payload types
that the fold never inspects (operators, literals, sides, directions, window
kinds, query definitions) are modelled as opaque codes.  The `metadata…`
fields of `Expr`/`Stmt`/`Transform` are collapsed into a single `meta : Nat`
field: the fold treats all non-`kind` fields uniformly (it copies them), so
one representative field suffices to observe frame conditions.

A fold implementation (`impl AstFold for …` with `&mut self` methods that may
fail) is modelled as a record of methods in the monad
`FoldM σ ε α = StateT σ (Except ε) α`: the state `σ` models the implementer's
mutable `self`, the error `ε` models `anyhow::Error`.  The free functions of
the source (`fold_expr_kind`, `fold_transform`, …) become functions
parametrised by such a record, exactly mirroring which call sites go through
the overridable method (`fold.fold_x(…)`) and which call a free function
directly (`fold_x(fold, …)`).
-/

namespace Prql

/-- Modelled from the spec: identifier type; its content is opaque to the fold
(`fold_ident`'s default returns it unchanged). -/
abbrev Ident := String

/-- Modelled from the spec: opaque literal payload of `ExprKind::Literal`. -/
abbrev Lit := String

/-- Modelled from the spec: opaque payload of `ExprKind::Interval`. -/
abbrev Interval := String

/-- Modelled from the spec: opaque binary operator (`op` is copied verbatim by
the fold). -/
abbrev BinOp := Nat

/-- Modelled from the spec: opaque unary operator. -/
abbrev UnOp := Nat

/-- Modelled from the spec: opaque window kind (`kind` is copied verbatim). -/
abbrev WindowKind := Nat

/-- Modelled from the spec: opaque join side (`side` is copied verbatim). -/
abbrev JoinSide := Nat

/-- Modelled from the spec: opaque sort direction (copied verbatim). -/
abbrev SortDirection := Nat

/-- Modelled from the spec: opaque payload of `Ty::Literal`. -/
abbrev TyLit := String

/-- Modelled from the spec: opaque query-level configuration
(`StmtKind::QueryDef(_)` and `Query.def` are never rewritten). -/
abbrev QueryDefData := String

/-- Modelled from the spec: `TableRef { name, alias, id, … }`.  It has no
expression children; `fold_table_ref` rewrites `name` and `alias` and copies
the rest (`..table`), represented here by `id`. -/
structure TableRef where
  name : Ident
  alias_ : Option Ident
  id : Nat

/- The mutually recursive tree: modelled from the spec's data model (§3) and
the constructor shapes used by `ast_fold.rs`.  `structure` is not allowed in
a `mutual` block, so each product type is a one-constructor inductive with
accessors defined below.  Rust field names that are Lean keywords are suffixed
with an underscore (`end_`, `alias_`, `by_`, `def_`); the `Type` variant keeps
its source name via quoting. -/
set_option maxHeartbeats 1000000 in
mutual

inductive Expr
  | mk (kind : ExprKind) (meta : Nat)

inductive ExprKind
  | Ident (i : Ident)
  | Binary (op : BinOp) (left : Expr) (right : Expr)
  | Unary (op : UnOp) (expr : Expr)
  | List (items : List Expr)
  | Range (r : Range)
  | Pipeline (p : Pipeline)
  | SString (items : List InterpolateItem)
  | FString (items : List InterpolateItem)
  | FuncCall (fc : FuncCall)
  | FuncCurry (fc : FuncCurry)
  | Windowed (w : Windowed)
  | «Type» (t : Ty)
  | ResolvedPipeline (transforms : List Transform)
  | Empty
  | Literal (l : Lit)
  | Interval (i : Interval)

inductive Range
  | mk (start : Option Expr) (end_ : Option Expr)

inductive Pipeline
  | mk (exprs : List Expr)

inductive InterpolateItem
  | String (s : String)
  | Expr (e : Expr)

inductive FuncCall
  | mk (name : Ident) (args : List Expr) (named_args : List (String × Expr))

inductive FuncCurry
  | mk (def_id : Nat) (args : List Expr) (named_args : List (Option Expr))

inductive Windowed
  | mk (expr : Expr) (group : List Expr) (sort : List ColumnSort)
       (window : WindowKind × Range)

inductive ColumnSort
  | mk (direction : SortDirection) (column : Expr)

inductive FuncDef
  | mk (name : Ident) (positional_params : List FuncParam)
       (named_params : List FuncParam) (body : Expr) (return_ty : Option Ty)

inductive FuncParam
  | mk (name : Ident) (ty : Option Ty) (default_value : Option Expr)

inductive TableDef
  | mk (id : Nat) (name : Ident) (pipeline : Expr)

inductive Transform
  | mk (kind : TransformKind) (meta : Nat)

inductive TransformKind
  | From (table : TableRef)
  | Derive (assigns : List Expr)
  | Select (assigns : List Expr)
  | Aggregate (assigns : List Expr) (by_ : List Expr)
  | Filter (f : Expr)
  | Sort (items : List ColumnSort)
  | Join (side : JoinSide) (with_ : TableRef) (filter : JoinFilter)
  | Group (by_ : List Expr) (pipeline : List Transform)
  | Window (kind : WindowKind) (range : Range) (pipeline : List Transform)
  | Take (range : Range) (by_ : List Expr) (sort : List ColumnSort)
  | Unique

inductive JoinFilter
  | On (nodes : List Expr)
  | Using (nodes : List Expr)

inductive Ty
  | Literal (l : TyLit)
  | Parameterized (t : Ty) (p : Expr)
  | AnyOf (ts : List Ty)
  | Infer

end

def Expr.kind : Expr → ExprKind
  | .mk k _ => k

def Expr.meta : Expr → Nat
  | .mk _ m => m

def Range.start : Range → Option Expr
  | .mk s _ => s

def Range.end_ : Range → Option Expr
  | .mk _ e => e

def Pipeline.exprs : Pipeline → List Expr
  | .mk es => es

def FuncCall.name : FuncCall → Ident
  | .mk n _ _ => n

def FuncCall.args : FuncCall → List Expr
  | .mk _ a _ => a

def FuncCall.named_args : FuncCall → List (String × Expr)
  | .mk _ _ na => na

def FuncCurry.def_id : FuncCurry → Nat
  | .mk d _ _ => d

def FuncCurry.args : FuncCurry → List Expr
  | .mk _ a _ => a

def FuncCurry.named_args : FuncCurry → List (Option Expr)
  | .mk _ _ na => na

def Windowed.expr : Windowed → Expr
  | .mk e _ _ _ => e

def Windowed.group : Windowed → List Expr
  | .mk _ g _ _ => g

def Windowed.sort : Windowed → List ColumnSort
  | .mk _ _ s _ => s

def Windowed.window : Windowed → WindowKind × Range
  | .mk _ _ _ w => w

def ColumnSort.direction : ColumnSort → SortDirection
  | .mk d _ => d

def ColumnSort.column : ColumnSort → Expr
  | .mk _ c => c

def FuncDef.name : FuncDef → Ident
  | .mk n _ _ _ _ => n

def FuncDef.positional_params : FuncDef → List FuncParam
  | .mk _ p _ _ _ => p

def FuncDef.named_params : FuncDef → List FuncParam
  | .mk _ _ p _ _ => p

def FuncDef.body : FuncDef → Expr
  | .mk _ _ _ b _ => b

def FuncDef.return_ty : FuncDef → Option Ty
  | .mk _ _ _ _ r => r

def FuncParam.name : FuncParam → Ident
  | .mk n _ _ => n

def FuncParam.ty : FuncParam → Option Ty
  | .mk _ t _ => t

def FuncParam.default_value : FuncParam → Option Expr
  | .mk _ _ d => d

def TableDef.id : TableDef → Nat
  | .mk i _ _ => i

def TableDef.name : TableDef → Ident
  | .mk _ n _ => n

def TableDef.pipeline : TableDef → Expr
  | .mk _ _ p => p

def Transform.kind : Transform → TransformKind
  | .mk k _ => k

def Transform.meta : Transform → Nat
  | .mk _ m => m

/-- Modelled from the spec: statement kinds; `QueryDef(_)` is opaque
configuration. -/
inductive StmtKind
  | FuncDef (f : FuncDef)
  | TableDef (t : TableDef)
  | Pipeline (exprs : List Expr)
  | QueryDef (q : QueryDefData)

/-- Modelled from the spec: a statement is its kind plus metadata. -/
structure Stmt where
  kind : StmtKind
  meta : Nat

/-- Modelled from the spec: a resolved named table of a `Query`. -/
structure Table where
  id : Nat
  name : Ident
  pipeline : List Transform

/-- Modelled from the spec: a complete resolved program.  The Rust field
`def` is a Lean keyword, hence `def_`. -/
structure Query where
  def_ : QueryDefData
  main_pipeline : List Transform
  tables : List Table

/-- Monad of a fold pass: `&mut self` state `σ` threaded through
`anyhow::Result` failure `ε`.  `Result<T>` becomes `FoldM σ ε T`. -/
abbrev FoldM (σ ε α : Type) : Type := StateT σ (Except ε) α

/-- One fold implementation: the complete method table of the `AstFold`
trait.  Every method of the Rust trait is a field; "overriding" a method is
choosing the field, and the trait's default bodies are the `default_fold_*`
functions and `defaultAstFold` record below.  Free functions of the source
take such a record as their `fold: &mut T` argument. -/
structure AstFold (σ ε : Type) where
  fold_stmt : Stmt → FoldM σ ε Stmt
  fold_stmts : List Stmt → FoldM σ ε (List Stmt)
  fold_expr : Expr → FoldM σ ε Expr
  fold_expr_kind : ExprKind → FoldM σ ε ExprKind
  fold_exprs : List Expr → FoldM σ ε (List Expr)
  fold_ident : Ident → FoldM σ ε Ident
  fold_table : TableDef → FoldM σ ε TableDef
  fold_transform : Transform → FoldM σ ε Transform
  fold_transforms : List Transform → FoldM σ ε (List Transform)
  fold_pipeline : Pipeline → FoldM σ ε Pipeline
  fold_func_def : FuncDef → FoldM σ ε FuncDef
  fold_func_call : FuncCall → FoldM σ ε FuncCall
  fold_func_curry : FuncCurry → FoldM σ ε FuncCurry
  fold_table_ref : TableRef → FoldM σ ε TableRef
  fold_interpolate_item : InterpolateItem → FoldM σ ε InterpolateItem
  fold_column_sort : ColumnSort → FoldM σ ε ColumnSort
  fold_column_sorts : List ColumnSort → FoldM σ ε (List ColumnSort)
  fold_join_filter : JoinFilter → FoldM σ ε JoinFilter
  fold_type : Ty → FoldM σ ε Ty
  fold_windowed : Windowed → FoldM σ ε Windowed
  fold_query : Query → FoldM σ ε Query

variable {σ ε : Type}

/-- Source `fold_optional_box`: `opt.map(|n| fold.fold_expr(*n)).transpose()`. -/
def fold_optional_box (F : AstFold σ ε) : Option Expr → FoldM σ ε (Option Expr)
  | none => pure none
  | some n => do pure (some (← F.fold_expr n))

/-- Source `fold_range`: folds `start` then `end` through `fold_optional_box`. -/
def fold_range (F : AstFold σ ε) (r : Range) : FoldM σ ε Range := do
  let s ← fold_optional_box F r.start
  let e ← fold_optional_box F r.end_
  pure (Range.mk s e)

mutual

/-- Source free function `fold_type`: recurses only into `Parameterized` and
`AnyOf`; `Literal` and the `_ => t` catch-all are returned unchanged.  Nested
types are folded by calling this free function directly (`fold_type(fold, *t)`
and `fold_type(fold, t)` in the source), not through the overridable
`fold.fold_type` hook; the value parameter of `Parameterized` goes through the
overridable `fold.fold_expr`. -/
def fold_type (F : AstFold σ ε) : Ty → FoldM σ ε Ty
  | .Literal l => pure (.Literal l)
  | .Parameterized t p => do
    let t' ← fold_type F t
    let p' ← F.fold_expr p
    pure (.Parameterized t' p')
  | .AnyOf ts => do pure (.AnyOf (← fold_type_list F ts))
  | .Infer => pure .Infer
termination_by t => sizeOf t

/-- Element-wise recursion of `fold_type` over `AnyOf` members
(`ts.into_iter().map(|t| fold_type(fold, t)).try_collect()`). -/
def fold_type_list (F : AstFold σ ε) : List Ty → FoldM σ ε (List Ty)
  | [] => pure []
  | t :: ts => do pure ((← fold_type F t) :: (← fold_type_list F ts))
termination_by ts => sizeOf ts

end

/-- Source `fold_interpolate_item`: `String` content is copied, `Expr` is
folded through the overridable `fold.fold_expr`. -/
def fold_interpolate_item (F : AstFold σ ε) :
    InterpolateItem → FoldM σ ε InterpolateItem
  | .String s => pure (.String s)
  | .Expr e => do pure (.Expr (← F.fold_expr e))

/-- Source `fold_column_sort`: copies `direction`, folds `column`. -/
def fold_column_sort (F : AstFold σ ε) (c : ColumnSort) :
    FoldM σ ε ColumnSort := do
  pure (ColumnSort.mk c.direction (← F.fold_expr c.column))

/-- Source `fold_join_filter`: folds the expression list of either variant. -/
def fold_join_filter (F : AstFold σ ε) : JoinFilter → FoldM σ ε JoinFilter
  | .On nodes => do pure (.On (← F.fold_exprs nodes))
  | .Using nodes => do pure (.Using (← F.fold_exprs nodes))

/-- Source `fold_windowed`: folds `expr`, `group`, `sort`, then the range
component of `window` (the `WindowKind` is copied). -/
def fold_windowed (F : AstFold σ ε) (w : Windowed) : FoldM σ ε Windowed := do
  let e ← F.fold_expr w.expr
  let g ← F.fold_exprs w.group
  let s ← F.fold_column_sorts w.sort
  let (kind, range) := w.window
  let r ← fold_range F range
  pure (Windowed.mk e g s (kind, r))

/-- Source `fold_func_call`: `name` is copied (`name: func_call.name`), `args`
and the values of `named_args` are folded in order through the overridable
`fold.fold_expr`, keys kept with their values. -/
def fold_func_call (F : AstFold σ ε) (fc : FuncCall) : FoldM σ ε FuncCall := do
  let args ← fc.args.mapM F.fold_expr
  let named ← fc.named_args.mapM (fun ne => do pure (ne.1, ← F.fold_expr ne.2))
  pure (FuncCall.mk fc.name args named)

/-- Source `fold_func_curry`: `def_id` is copied, `args` folded, and each
`named_args` slot goes through `expr.map(fold_expr).transpose()`: `None`
stays `None`, `Some e` becomes `Some` of the folded expression. -/
def fold_func_curry (F : AstFold σ ε) (fc : FuncCurry) : FoldM σ ε FuncCurry := do
  let args ← fc.args.mapM F.fold_expr
  let named ← fc.named_args.mapM (fun o =>
    match o with
    | none => pure none
    | some e => do pure (some (← F.fold_expr e)))
  pure (FuncCurry.mk fc.def_id args named)

/-- Source `fold_table_ref`: rewrites `name` and `alias` through the
overridable `fold.fold_ident`, copies the remaining fields (`..table`). -/
def fold_table_ref (F : AstFold σ ε) (t : TableRef) : FoldM σ ε TableRef :=
  F.fold_ident t.name >>= fun n =>
    (match t.alias_ with
      | none => pure none
      | some x => do pure (some (← F.fold_ident x)))
    >>= fun a => pure { name := n, alias_ := a, id := t.id }

/-- Source `fold_func_param`: for each parameter, only `default_value` is
folded (`transpose` of the optional fold); `..param` copies the rest. -/
def fold_func_param (F : AstFold σ ε) (nodes : List FuncParam) :
    FoldM σ ε (List FuncParam) :=
  nodes.mapM (fun param =>
    (match param.default_value with
      | none => pure none
      | some n => do pure (some (← F.fold_expr n)))
    >>= fun dv => pure (FuncParam.mk param.name param.ty dv))

/-- Source `fold_func_def`: folds `name` via the overridable `fold.fold_ident`,
both parameter lists via the free `fold_func_param(fold, …)`, `body` via
`fold.fold_expr`, and copies `return_ty` verbatim. -/
def fold_func_def (F : AstFold σ ε) (fd : FuncDef) : FoldM σ ε FuncDef := do
  let n ← F.fold_ident fd.name
  let pp ← fold_func_param F fd.positional_params
  let np ← fold_func_param F fd.named_params
  let b ← F.fold_expr fd.body
  pure (FuncDef.mk n pp np b fd.return_ty)

/-- Source `fold_transforms`: maps the overridable `fold.fold_transform` over
the list in order (`try_collect`). -/
def fold_transforms (F : AstFold σ ε) (transforms : List Transform) :
    FoldM σ ε (List Transform) :=
  transforms.mapM F.fold_transform

/-- Source `fold_pipeline`: folds the stage list through the overridable
`fold.fold_exprs`. -/
def fold_pipeline (F : AstFold σ ε) (p : Pipeline) : FoldM σ ε Pipeline := do
  pure (Pipeline.mk (← F.fold_exprs p.exprs))

/-- Source free function `fold_expr_kind`: the default structural recursion on
expression kinds.  All children go through the overridable methods of `fold`;
in particular the `Type(t)` branch is `Type(fold.fold_type(t)?)`, i.e. it goes
through the overridable `fold_type` hook.  `Empty`, `Literal` and `Interval`
are returned unchanged. -/
def fold_expr_kind (F : AstFold σ ε) : ExprKind → FoldM σ ε ExprKind
  | .Ident i => do pure (.Ident (← F.fold_ident i))
  | .Binary op left right => do
    let l ← F.fold_expr left
    let r ← F.fold_expr right
    pure (.Binary op l r)
  | .Unary op e => do pure (.Unary op (← F.fold_expr e))
  | .List items => do pure (.List (← F.fold_exprs items))
  | .Range r => do pure (.Range (← fold_range F r))
  | .Pipeline p => do pure (.Pipeline (← F.fold_pipeline p))
  | .SString items => do
    pure (.SString (← items.mapM F.fold_interpolate_item))
  | .FString items => do
    pure (.FString (← items.mapM F.fold_interpolate_item))
  | .FuncCall fc => do pure (.FuncCall (← F.fold_func_call fc))
  | .FuncCurry fc => do pure (.FuncCurry (← F.fold_func_curry fc))
  | .Windowed w => do pure (.Windowed (← F.fold_windowed w))
  | .«Type» t => do pure (.«Type» (← F.fold_type t))
  | .ResolvedPipeline ts => do
    pure (.ResolvedPipeline (← F.fold_transforms ts))
  | .Empty => pure .Empty
  | .Literal l => pure (.Literal l)
  | .Interval i => pure (.Interval i)

/-- Source free function `fold_stmt_kind`: `QueryDef(_)` is returned
unchanged, the other kinds go through the overridable methods. -/
def fold_stmt_kind (F : AstFold σ ε) : StmtKind → FoldM σ ε StmtKind
  | .FuncDef f => do pure (.FuncDef (← F.fold_func_def f))
  | .TableDef t => do pure (.TableDef (← F.fold_table t))
  | .Pipeline exprs => do pure (.Pipeline (← F.fold_exprs exprs))
  | .QueryDef q => pure (.QueryDef q)

/-- Source free function `fold_transform`: `transform.kind` is replaced by the
folded kind and the transform is returned otherwise unchanged (`Ok(transform)`
after the field assignment). -/
def fold_transform (F : AstFold σ ε) (t : Transform) : FoldM σ ε Transform :=
  (match t.kind with
    | .From table => do pure (TransformKind.From (← F.fold_table_ref table))
    | .Derive assigns => do pure (TransformKind.Derive (← F.fold_exprs assigns))
    | .Select assigns => do pure (TransformKind.Select (← F.fold_exprs assigns))
    | .Aggregate assigns by_ => do
      let a ← F.fold_exprs assigns
      let b ← F.fold_exprs by_
      pure (TransformKind.Aggregate a b)
    | .Filter f => do pure (TransformKind.Filter (← F.fold_expr f))
    | .Sort items => do pure (TransformKind.Sort (← F.fold_column_sorts items))
    | .Join side with_ filter => do
      let w ← F.fold_table_ref with_
      let f ← F.fold_join_filter filter
      pure (TransformKind.Join side w f)
    | .Group by_ pipeline => do
      let b ← F.fold_exprs by_
      let p ← F.fold_transforms pipeline
      pure (TransformKind.Group b p)
    | .Window kind range pipeline => do
      let r ← fold_range F range
      let p ← F.fold_transforms pipeline
      pure (TransformKind.Window kind r p)
    | .Take range by_ sort => do
      let r ← fold_range F range
      let b ← F.fold_exprs by_
      let s ← F.fold_column_sorts sort
      pure (TransformKind.Take r b s)
    | .Unique => pure TransformKind.Unique)
    >>= fun kind => pure (Transform.mk kind t.meta)

/-- Source `fold_query`: `def` is copied, `main_pipeline` folded through the
overridable `fold.fold_transforms`, then each table keeps its `id` and `name`
and has its `pipeline` folded, in list order. -/
def fold_query (F : AstFold σ ε) (q : Query) : FoldM σ ε Query := do
  let mp ← F.fold_transforms q.main_pipeline
  let ts ← q.tables.mapM (fun t => do
    let p ← F.fold_transforms t.pipeline
    pure (Table.mk t.id t.name p))
  pure (Query.mk q.def_ mp ts)

/-- Default body of the trait method `fold_stmt`:
`stmt.kind = fold_stmt_kind(self, stmt.kind)?; Ok(stmt)` — only `kind` is
replaced, through the free `fold_stmt_kind`. -/
def default_fold_stmt (F : AstFold σ ε) (stmt : Stmt) : FoldM σ ε Stmt := do
  pure (Stmt.mk (← fold_stmt_kind F stmt.kind) stmt.meta)

/-- Default body of the trait method `fold_stmts`: maps the overridable
`self.fold_stmt` over the list. -/
def default_fold_stmts (F : AstFold σ ε) (stmts : List Stmt) :
    FoldM σ ε (List Stmt) :=
  stmts.mapM F.fold_stmt

/-- Default body of the trait method `fold_expr`:
`expr.kind = self.fold_expr_kind(expr.kind)?; Ok(expr)` — only `kind` is
replaced, through the overridable `fold_expr_kind` hook. -/
def default_fold_expr (F : AstFold σ ε) (expr : Expr) : FoldM σ ε Expr := do
  pure (Expr.mk (← F.fold_expr_kind expr.kind) expr.meta)

/-- Default body of the trait method `fold_exprs`: maps the overridable
`self.fold_expr` over the list. -/
def default_fold_exprs (F : AstFold σ ε) (exprs : List Expr) :
    FoldM σ ε (List Expr) :=
  exprs.mapM F.fold_expr

/-- Default body of the trait method `fold_ident`: `Ok(ident)`. -/
def default_fold_ident (_F : AstFold σ ε) (i : Ident) : FoldM σ ε Ident :=
  pure i

/-- Default body of the trait method `fold_table`: copies `id`, folds `name`
via the overridable `fold_ident` and `pipeline` via the overridable
`fold_expr`. -/
def default_fold_table (F : AstFold σ ε) (t : TableDef) : FoldM σ ε TableDef := do
  let n ← F.fold_ident t.name
  let p ← F.fold_expr t.pipeline
  pure (TableDef.mk t.id n p)

/-- Default body of the trait method `fold_column_sorts`: maps the overridable
`self.fold_column_sort` over the list. -/
def default_fold_column_sorts (F : AstFold σ ε) (columns : List ColumnSort) :
    FoldM σ ε (List ColumnSort) :=
  columns.mapM F.fold_column_sort

/-- The all-default `fold_ident`: `Ok(ident)`. -/
def dfold_ident (i : Ident) : FoldM σ ε Ident :=
  pure i

/-- The all-default `fold_table_ref` (no expression children, so it is not
part of the recursive knot). -/
def dfold_table_ref (t : TableRef) : FoldM σ ε TableRef := do
  let n ← dfold_ident t.name
  let a ← match t.alias_ with
    | none => pure none
    | some x => do pure (some (← dfold_ident x))
  pure { name := n, alias_ := a, id := t.id }

/- The fold implementation in which every overridable method is its default
body (`struct Identity; impl AstFold for Identity {}` in Rust).  Because the
trait's defaults call back into the overridable methods (`self.fold_expr`,
`self.fold_exprs`, …), the all-default implementation is the fixed point of
that wiring; it is constructed here as one mutual recursion (`dfold_*`), and
the lemmas `defaultAstFold_*` below prove that it satisfies every default
method body and every free function of the source. -/
mutual

/-- All-default `fold_expr`: replaces `kind` by its fold, keeps `meta`. -/
def dfold_expr : Expr → FoldM σ ε Expr
  | .mk k m => do pure (Expr.mk (← dfold_expr_kind k) m)
termination_by e => sizeOf e

/-- All-default `fold_expr_kind`: the free `fold_expr_kind` with every method
call resolved to its default. -/
def dfold_expr_kind : ExprKind → FoldM σ ε ExprKind
  | .Ident i => do pure (.Ident (← dfold_ident i))
  | .Binary op left right => do
    let l ← dfold_expr left
    let r ← dfold_expr right
    pure (.Binary op l r)
  | .Unary op e => do pure (.Unary op (← dfold_expr e))
  | .List items => do pure (.List (← dfold_exprs items))
  | .Range r => do pure (.Range (← dfold_range r))
  | .Pipeline p => do pure (.Pipeline (← dfold_pipeline p))
  | .SString items => do pure (.SString (← dfold_interpolate_items items))
  | .FString items => do pure (.FString (← dfold_interpolate_items items))
  | .FuncCall fc => do pure (.FuncCall (← dfold_func_call fc))
  | .FuncCurry fc => do pure (.FuncCurry (← dfold_func_curry fc))
  | .Windowed w => do pure (.Windowed (← dfold_windowed w))
  | .«Type» t => do pure (.«Type» (← dfold_type t))
  | .ResolvedPipeline ts => do pure (.ResolvedPipeline (← dfold_transforms ts))
  | .Empty => pure .Empty
  | .Literal l => pure (.Literal l)
  | .Interval i => pure (.Interval i)
termination_by k => sizeOf k

/-- All-default `fold_exprs`: element-wise `fold_expr` in order. -/
def dfold_exprs : List Expr → FoldM σ ε (List Expr)
  | [] => pure []
  | e :: es => do pure ((← dfold_expr e) :: (← dfold_exprs es))
termination_by es => sizeOf es

/-- All-default `fold_optional_box`. -/
def dfold_optional_box : Option Expr → FoldM σ ε (Option Expr)
  | none => pure none
  | some n => do pure (some (← dfold_expr n))
termination_by o => sizeOf o

/-- All-default `fold_range`. -/
def dfold_range : Range → FoldM σ ε Range
  | .mk s e => do
    let s' ← dfold_optional_box s
    let e' ← dfold_optional_box e
    pure (Range.mk s' e')
termination_by r => sizeOf r

/-- All-default `fold_pipeline`. -/
def dfold_pipeline : Pipeline → FoldM σ ε Pipeline
  | .mk es => do pure (Pipeline.mk (← dfold_exprs es))
termination_by p => sizeOf p

/-- All-default `fold_interpolate_item`. -/
def dfold_interpolate_item : InterpolateItem → FoldM σ ε InterpolateItem
  | .String s => pure (.String s)
  | .Expr e => do pure (.Expr (← dfold_expr e))
termination_by it => sizeOf it

/-- All-default element-wise `fold_interpolate_item` over a list. -/
def dfold_interpolate_items : List InterpolateItem → FoldM σ ε (List InterpolateItem)
  | [] => pure []
  | it :: items => do
    pure ((← dfold_interpolate_item it) :: (← dfold_interpolate_items items))
termination_by items => sizeOf items

/-- All-default `fold_func_call`: `name` copied, `args` and `named_args`
values folded in order. -/
def dfold_func_call : FuncCall → FoldM σ ε FuncCall
  | .mk n args na => do
    let args' ← dfold_exprs args
    let na' ← dfold_named_args na
    pure (FuncCall.mk n args' na')
termination_by fc => sizeOf fc

/-- All-default fold of `FuncCall.named_args` pairs. -/
def dfold_named_args : List (String × Expr) → FoldM σ ε (List (String × Expr))
  | [] => pure []
  | (n, e) :: rest => do
    let e' ← dfold_expr e
    pure ((n, e') :: (← dfold_named_args rest))
termination_by l => sizeOf l

/-- All-default `fold_func_curry`: `def_id` copied, `args` folded,
`named_args` slots folded through `transpose`. -/
def dfold_func_curry : FuncCurry → FoldM σ ε FuncCurry
  | .mk d args na => do
    let args' ← dfold_exprs args
    let na' ← dfold_opt_args na
    pure (FuncCurry.mk d args' na')
termination_by fc => sizeOf fc

/-- All-default fold of `FuncCurry.named_args` optional slots. -/
def dfold_opt_args : List (Option Expr) → FoldM σ ε (List (Option Expr))
  | [] => pure []
  | none :: rest => do pure (none :: (← dfold_opt_args rest))
  | some e :: rest => do
    let e' ← dfold_expr e
    pure (some e' :: (← dfold_opt_args rest))
termination_by l => sizeOf l

/-- All-default `fold_windowed`. -/
def dfold_windowed : Windowed → FoldM σ ε Windowed
  | .mk e g s (kind, range) => do
    let e' ← dfold_expr e
    let g' ← dfold_exprs g
    let s' ← dfold_column_sorts s
    let r' ← dfold_range range
    pure (Windowed.mk e' g' s' (kind, r'))
termination_by w => sizeOf w

/-- All-default `fold_column_sort`. -/
def dfold_column_sort : ColumnSort → FoldM σ ε ColumnSort
  | .mk d c => do pure (ColumnSort.mk d (← dfold_expr c))
termination_by c => sizeOf c

/-- All-default `fold_column_sorts`. -/
def dfold_column_sorts : List ColumnSort → FoldM σ ε (List ColumnSort)
  | [] => pure []
  | c :: cs => do pure ((← dfold_column_sort c) :: (← dfold_column_sorts cs))
termination_by cs => sizeOf cs

/-- All-default `fold_type`. -/
def dfold_type : Ty → FoldM σ ε Ty
  | .Literal l => pure (.Literal l)
  | .Parameterized t p => do
    let t' ← dfold_type t
    let p' ← dfold_expr p
    pure (.Parameterized t' p')
  | .AnyOf ts => do pure (.AnyOf (← dfold_types ts))
  | .Infer => pure .Infer
termination_by t => sizeOf t

/-- All-default element-wise `fold_type` over `AnyOf` members. -/
def dfold_types : List Ty → FoldM σ ε (List Ty)
  | [] => pure []
  | t :: ts => do pure ((← dfold_type t) :: (← dfold_types ts))
termination_by ts => sizeOf ts

/-- All-default `fold_transform`: the free `fold_transform` with every method
call resolved to its default. -/
def dfold_transform : Transform → FoldM σ ε Transform
  | .mk k m => do
    let kind ← match k with
      | .From table => do pure (TransformKind.From (← dfold_table_ref table))
      | .Derive assigns => do pure (TransformKind.Derive (← dfold_exprs assigns))
      | .Select assigns => do pure (TransformKind.Select (← dfold_exprs assigns))
      | .Aggregate assigns by_ => do
        let a ← dfold_exprs assigns
        let b ← dfold_exprs by_
        pure (TransformKind.Aggregate a b)
      | .Filter f => do pure (TransformKind.Filter (← dfold_expr f))
      | .Sort items => do pure (TransformKind.Sort (← dfold_column_sorts items))
      | .Join side with_ filter => do
        let w ← dfold_table_ref with_
        let f ← dfold_join_filter filter
        pure (TransformKind.Join side w f)
      | .Group by_ pipeline => do
        let b ← dfold_exprs by_
        let p ← dfold_transforms pipeline
        pure (TransformKind.Group b p)
      | .Window kind range pipeline => do
        let r ← dfold_range range
        let p ← dfold_transforms pipeline
        pure (TransformKind.Window kind r p)
      | .Take range by_ sort => do
        let r ← dfold_range range
        let b ← dfold_exprs by_
        let s ← dfold_column_sorts sort
        pure (TransformKind.Take r b s)
      | .Unique => pure TransformKind.Unique
    pure (Transform.mk kind m)
termination_by t => sizeOf t

/-- All-default `fold_transforms`. -/
def dfold_transforms : List Transform → FoldM σ ε (List Transform)
  | [] => pure []
  | t :: ts => do pure ((← dfold_transform t) :: (← dfold_transforms ts))
termination_by ts => sizeOf ts

/-- All-default `fold_join_filter`. -/
def dfold_join_filter : JoinFilter → FoldM σ ε JoinFilter
  | .On nodes => do pure (.On (← dfold_exprs nodes))
  | .Using nodes => do pure (.Using (← dfold_exprs nodes))
termination_by f => sizeOf f

/-- All-default `fold_func_def`: `return_ty` copied. -/
def dfold_func_def : FuncDef → FoldM σ ε FuncDef
  | .mk n pp np b rt => do
    let n' ← dfold_ident n
    let pp' ← dfold_func_params pp
    let np' ← dfold_func_params np
    let b' ← dfold_expr b
    pure (FuncDef.mk n' pp' np' b' rt)

/-- All-default `fold_func_param`: only `default_value` is folded. -/
def dfold_func_params : List FuncParam → FoldM σ ε (List FuncParam)
  | [] => pure []
  | .mk n t dv :: ps => do
    let dv' ← match dv with
      | none => pure none
      | some x => do pure (some (← dfold_expr x))
    pure (FuncParam.mk n t dv' :: (← dfold_func_params ps))
termination_by ps => sizeOf ps

/-- All-default `fold_table`: `id` copied, `name` and `pipeline` folded. -/
def dfold_table : TableDef → FoldM σ ε TableDef
  | .mk i n p => do
    let n' ← dfold_ident n
    let p' ← dfold_expr p
    pure (TableDef.mk i n' p')

end

/-- All-default `fold_stmt_kind` (statements sit above the recursive knot). -/
def dfold_stmt_kind : StmtKind → FoldM σ ε StmtKind
  | .FuncDef f => do pure (.FuncDef (← dfold_func_def f))
  | .TableDef t => do pure (.TableDef (← dfold_table t))
  | .Pipeline exprs => do pure (.Pipeline (← dfold_exprs exprs))
  | .QueryDef q => pure (.QueryDef q)

/-- All-default `fold_stmt`: replaces `kind`, keeps `meta`. -/
def dfold_stmt (stmt : Stmt) : FoldM σ ε Stmt := do
  pure (Stmt.mk (← dfold_stmt_kind stmt.kind) stmt.meta)

/-- All-default `fold_stmts`. -/
def dfold_stmts (stmts : List Stmt) : FoldM σ ε (List Stmt) :=
  stmts.mapM dfold_stmt

/-- All-default `fold_query`: `def` copied; `main_pipeline` and each table's
`pipeline` folded, table `id` and `name` copied. -/
def dfold_query (q : Query) : FoldM σ ε Query := do
  let mp ← dfold_transforms q.main_pipeline
  let ts ← q.tables.mapM (fun t => do
    let p ← dfold_transforms t.pipeline
    pure (Table.mk t.id t.name p))
  pure (Query.mk q.def_ mp ts)

/-- The fold implementation with every overridable method left at its default:
the Rust `impl AstFold for … {}` with an empty body. -/
def defaultAstFold : AstFold σ ε where
  fold_stmt := dfold_stmt
  fold_stmts := dfold_stmts
  fold_expr := dfold_expr
  fold_expr_kind := dfold_expr_kind
  fold_exprs := dfold_exprs
  fold_ident := dfold_ident
  fold_table := dfold_table
  fold_transform := dfold_transform
  fold_transforms := dfold_transforms
  fold_pipeline := dfold_pipeline
  fold_func_def := dfold_func_def
  fold_func_call := dfold_func_call
  fold_func_curry := dfold_func_curry
  fold_table_ref := dfold_table_ref
  fold_interpolate_item := dfold_interpolate_item
  fold_column_sort := dfold_column_sort
  fold_column_sorts := dfold_column_sorts
  fold_join_filter := dfold_join_filter
  fold_type := dfold_type
  fold_windowed := dfold_windowed
  fold_query := dfold_query

/-- An inert fold implementation: every method returns its argument unchanged
and does not recurse.  It is the base record for the targeted overrides
below, which model Rust implementations overriding a single method. -/
def pureFold : AstFold σ ε where
  fold_stmt := fun x => pure x
  fold_stmts := fun x => pure x
  fold_expr := fun x => pure x
  fold_expr_kind := fun x => pure x
  fold_exprs := fun x => pure x
  fold_ident := fun x => pure x
  fold_table := fun x => pure x
  fold_transform := fun x => pure x
  fold_transforms := fun x => pure x
  fold_pipeline := fun x => pure x
  fold_func_def := fun x => pure x
  fold_func_call := fun x => pure x
  fold_func_curry := fun x => pure x
  fold_table_ref := fun x => pure x
  fold_interpolate_item := fun x => pure x
  fold_column_sort := fun x => pure x
  fold_column_sorts := fun x => pure x
  fold_join_filter := fun x => pure x
  fold_type := fun x => pure x
  fold_windowed := fun x => pure x
  fold_query := fun x => pure x

/-- A fold implementation that overrides `fold_type` only: the override counts
its invocations in the state.  Used to observe whether the `Type(Ty)` branch
of the default expression folding dispatches through the override. -/
def tyCountFold : AstFold Nat Unit :=
  { pureFold with fold_type := fun t => fun s => .ok (t, s + 1) }

/-- An expression rewrite that fails exactly on expressions whose `meta` is 1
and leaves every other expression unchanged. -/
def failExpr : Expr → FoldM Nat Nat Expr :=
  fun e => fun s => if e.meta = 1 then .error 42 else .ok (e, s)

/-- A fold implementation that overrides `fold_expr` with `failExpr` and keeps
`fold_exprs` at its default wiring (mapping its own `fold_expr`). -/
def failFold : AstFold Nat Nat :=
  { pureFold with
      fold_expr := failExpr
      fold_exprs := fun l => l.mapM failExpr }

/-- An expression rewrite that appends the expression's `meta` to the state
log and returns the expression unchanged: it records visitation order. -/
def logExpr : Expr → FoldM (List Nat) Unit Expr :=
  fun e => fun s => .ok (e, s ++ [e.meta])

/-- A fold implementation that logs each visited expression's `meta`, logs
1000 for a visited table reference and 2000 for a visited join filter;
`fold_exprs` is kept at its default wiring. -/
def logFold : AstFold (List Nat) Unit :=
  { pureFold with
      fold_expr := logExpr
      fold_exprs := fun l => l.mapM logExpr
      fold_table_ref := fun t => fun s => .ok (t, s ++ [1000])
      fold_join_filter := fun f => fun s => .ok (f, s ++ [2000]) }

/-- A fold implementation that overrides `fold_expr_kind` to discard the kind
entirely, replacing it by `Empty`.  Used to witness that the default
`fold_expr` still preserves every non-`kind` field. -/
def kindEraseFold : AstFold Nat Unit :=
  { pureFold with fold_expr_kind := fun _ => pure .Empty }

/-! Elementary facts about running `FoldM` computations: how `pure` and `>>=`
behave on a given state, including the fail-fast behaviour of `>>=` (`?` in
the source). -/

theorem foldM_pure_apply (a : α) (s : σ) :
    (pure a : FoldM σ ε α) s = .ok (a, s) := rfl

theorem foldM_bind_ok {m : FoldM σ ε α} {f : α → FoldM σ ε β} {s s' : σ}
    {a : α} (h : m s = .ok (a, s')) : (m >>= f) s = f a s' := by
  simp [Bind.bind, StateT.bind, h, Except.bind]

theorem foldM_bind_error {m : FoldM σ ε α} {f : α → FoldM σ ε β} {s : σ}
    {err : ε} (h : m s = .error err) : (m >>= f) s = .error err := by
  simp [Bind.bind, StateT.bind, h, Except.bind]

theorem foldM_bind_eq_ok {m : FoldM σ ε α} {f : α → FoldM σ ε β} {s s₂ : σ}
    {b : β} :
    (m >>= f) s = .ok (b, s₂) ↔
      ∃ a s₁, m s = .ok (a, s₁) ∧ f a s₁ = .ok (b, s₂) := by
  constructor
  · intro h
    cases hm : m s with
    | error e => rw [foldM_bind_error hm] at h; exact absurd h (by simp)
    | ok p =>
      obtain ⟨a, s₁⟩ := p
      exact ⟨a, s₁, rfl, by rw [foldM_bind_ok hm] at h; exact h⟩
  · rintro ⟨a, s₁, hm, hf⟩
    rw [foldM_bind_ok hm]
    exact hf

theorem foldM_pure_eq_ok {a b : α} {s s' : σ} :
    (pure a : FoldM σ ε α) s = .ok (b, s') ↔ b = a ∧ s' = s := by
  rw [foldM_pure_apply]
  constructor
  · intro h
    injection h with h
    injection h with h1 h2
    exact ⟨h1.symm, h2.symm⟩
  · rintro ⟨rfl, rfl⟩
    rfl

/-- Monadic `map`/`try_collect` over a list that returns `Ok` relates input and
output element-wise, in particular preserving length and positions. -/
theorem mapM_eq_ok_forall₂ {α β : Type} {g : α → FoldM σ ε β} :
    ∀ {l : List α} {l' : List β} {s s' : σ}, l.mapM g s = .ok (l', s') →
      List.Forall₂ (fun a b => ∃ s₁ s₂, g a s₁ = .ok (b, s₂)) l l'
  | [], l', s, s', h => by
    rw [List.mapM_nil] at h
    obtain ⟨rfl, rfl⟩ := foldM_pure_eq_ok.1 h
    exact List.Forall₂.nil
  | a :: l, l', s, s', h => by
    rw [List.mapM_cons] at h
    obtain ⟨b, s₁, hga, h2⟩ := foldM_bind_eq_ok.1 h
    obtain ⟨bs, s₂, hl, h3⟩ := foldM_bind_eq_ok.1 h2
    obtain ⟨rfl, rfl⟩ := foldM_pure_eq_ok.1 h3
    exact List.Forall₂.cons ⟨s, s₁, hga⟩ (mapM_eq_ok_forall₂ hl)

/-- Monadic `map` of an effect that always succeeds unchanged is `pure`. -/
theorem mapM_congr_pure {α : Type} {g : α → FoldM σ ε α}
    (hg : ∀ a, g a = pure a) : ∀ (l : List α), l.mapM g = pure l
  | [] => by rw [List.mapM_nil]
  | a :: l => by rw [List.mapM_cons, hg a, mapM_congr_pure hg l]; simp

/-! Identity of the all-default fold, one lemma per syntactic category, by
mutual induction following the recursion structure of the `dfold_*` family. -/

theorem dfold_ident_pure (i : Ident) : dfold_ident (σ := σ) (ε := ε) i = pure i :=
  rfl

theorem dfold_table_ref_pure (t : TableRef) :
    dfold_table_ref (σ := σ) (ε := ε) t = pure t := by
  cases t with
  | mk n a i => cases a <;> simp [dfold_table_ref, dfold_ident]

set_option maxHeartbeats 3000000 in
mutual

theorem dfold_expr_pure : ∀ (e : Expr), dfold_expr (σ := σ) (ε := ε) e = pure e
  | .mk k m => by rw [dfold_expr, dfold_expr_kind_pure k]; simp
termination_by e => sizeOf e

theorem dfold_expr_kind_pure :
    ∀ (k : ExprKind), dfold_expr_kind (σ := σ) (ε := ε) k = pure k
  | .Ident i => by rw [dfold_expr_kind]; simp [dfold_ident]
  | .Binary op left right => by
    rw [dfold_expr_kind, dfold_expr_pure left, dfold_expr_pure right]; simp
  | .Unary op e => by rw [dfold_expr_kind, dfold_expr_pure e]; simp
  | .List items => by rw [dfold_expr_kind, dfold_exprs_pure items]; simp
  | .Range r => by rw [dfold_expr_kind, dfold_range_pure r]; simp
  | .Pipeline p => by rw [dfold_expr_kind, dfold_pipeline_pure p]; simp
  | .SString items => by
    rw [dfold_expr_kind, dfold_interpolate_items_pure items]; simp
  | .FString items => by
    rw [dfold_expr_kind, dfold_interpolate_items_pure items]; simp
  | .FuncCall fc => by rw [dfold_expr_kind, dfold_func_call_pure fc]; simp
  | .FuncCurry fc => by rw [dfold_expr_kind, dfold_func_curry_pure fc]; simp
  | .Windowed w => by rw [dfold_expr_kind, dfold_windowed_pure w]; simp
  | .«Type» t => by rw [dfold_expr_kind, dfold_type_pure t]; simp
  | .ResolvedPipeline ts => by
    rw [dfold_expr_kind, dfold_transforms_pure ts]; simp
  | .Empty => by rw [dfold_expr_kind]
  | .Literal l => by rw [dfold_expr_kind]
  | .Interval i => by rw [dfold_expr_kind]
termination_by k => sizeOf k

theorem dfold_exprs_pure :
    ∀ (es : List Expr), dfold_exprs (σ := σ) (ε := ε) es = pure es
  | [] => by rw [dfold_exprs]
  | e :: es => by rw [dfold_exprs, dfold_expr_pure e, dfold_exprs_pure es]; simp
termination_by es => sizeOf es

theorem dfold_optional_box_pure :
    ∀ (o : Option Expr), dfold_optional_box (σ := σ) (ε := ε) o = pure o
  | none => by rw [dfold_optional_box]
  | some n => by rw [dfold_optional_box, dfold_expr_pure n]; simp
termination_by o => sizeOf o

theorem dfold_range_pure : ∀ (r : Range), dfold_range (σ := σ) (ε := ε) r = pure r
  | .mk s e => by
    rw [dfold_range, dfold_optional_box_pure s, dfold_optional_box_pure e]; simp
termination_by r => sizeOf r

theorem dfold_pipeline_pure :
    ∀ (p : Pipeline), dfold_pipeline (σ := σ) (ε := ε) p = pure p
  | .mk es => by rw [dfold_pipeline, dfold_exprs_pure es]; simp
termination_by p => sizeOf p

theorem dfold_interpolate_item_pure :
    ∀ (it : InterpolateItem), dfold_interpolate_item (σ := σ) (ε := ε) it = pure it
  | .String s => by rw [dfold_interpolate_item]
  | .Expr e => by rw [dfold_interpolate_item, dfold_expr_pure e]; simp
termination_by it => sizeOf it

theorem dfold_interpolate_items_pure :
    ∀ (items : List InterpolateItem),
      dfold_interpolate_items (σ := σ) (ε := ε) items = pure items
  | [] => by rw [dfold_interpolate_items]
  | it :: items => by
    rw [dfold_interpolate_items, dfold_interpolate_item_pure it,
      dfold_interpolate_items_pure items]
    simp
termination_by items => sizeOf items

theorem dfold_func_call_pure :
    ∀ (fc : FuncCall), dfold_func_call (σ := σ) (ε := ε) fc = pure fc
  | .mk n args na => by
    rw [dfold_func_call, dfold_exprs_pure args, dfold_named_args_pure na]; simp
termination_by fc => sizeOf fc

theorem dfold_named_args_pure :
    ∀ (l : List (String × Expr)), dfold_named_args (σ := σ) (ε := ε) l = pure l
  | [] => by rw [dfold_named_args]
  | (n, e) :: rest => by
    rw [dfold_named_args, dfold_expr_pure e, dfold_named_args_pure rest]; simp
termination_by l => sizeOf l

theorem dfold_func_curry_pure :
    ∀ (fc : FuncCurry), dfold_func_curry (σ := σ) (ε := ε) fc = pure fc
  | .mk d args na => by
    rw [dfold_func_curry, dfold_exprs_pure args, dfold_opt_args_pure na]; simp
termination_by fc => sizeOf fc

theorem dfold_opt_args_pure :
    ∀ (l : List (Option Expr)), dfold_opt_args (σ := σ) (ε := ε) l = pure l
  | [] => by rw [dfold_opt_args]
  | none :: rest => by rw [dfold_opt_args, dfold_opt_args_pure rest]; simp
  | some e :: rest => by
    rw [dfold_opt_args, dfold_expr_pure e, dfold_opt_args_pure rest]; simp
termination_by l => sizeOf l

theorem dfold_windowed_pure :
    ∀ (w : Windowed), dfold_windowed (σ := σ) (ε := ε) w = pure w
  | .mk e g s (kind, range) => by
    rw [dfold_windowed, dfold_expr_pure e, dfold_exprs_pure g,
      dfold_column_sorts_pure s, dfold_range_pure range]
    simp
termination_by w => sizeOf w

theorem dfold_column_sort_pure :
    ∀ (c : ColumnSort), dfold_column_sort (σ := σ) (ε := ε) c = pure c
  | .mk d c => by rw [dfold_column_sort, dfold_expr_pure c]; simp
termination_by c => sizeOf c

theorem dfold_column_sorts_pure :
    ∀ (cs : List ColumnSort), dfold_column_sorts (σ := σ) (ε := ε) cs = pure cs
  | [] => by rw [dfold_column_sorts]
  | c :: cs => by
    rw [dfold_column_sorts, dfold_column_sort_pure c, dfold_column_sorts_pure cs]
    simp
termination_by cs => sizeOf cs

theorem dfold_type_pure : ∀ (t : Ty), dfold_type (σ := σ) (ε := ε) t = pure t
  | .Literal l => by rw [dfold_type]
  | .Parameterized t p => by
    rw [dfold_type, dfold_type_pure t, dfold_expr_pure p]; simp
  | .AnyOf ts => by rw [dfold_type, dfold_types_pure ts]; simp
  | .Infer => by rw [dfold_type]
termination_by t => sizeOf t

theorem dfold_types_pure :
    ∀ (ts : List Ty), dfold_types (σ := σ) (ε := ε) ts = pure ts
  | [] => by rw [dfold_types]
  | t :: ts => by rw [dfold_types, dfold_type_pure t, dfold_types_pure ts]; simp
termination_by ts => sizeOf ts

theorem dfold_transform_pure :
    ∀ (t : Transform), dfold_transform (σ := σ) (ε := ε) t = pure t
  | .mk (.From table) m => by
    rw [dfold_transform]; simp [dfold_table_ref_pure table]
  | .mk (.Derive assigns) m => by
    rw [dfold_transform]; simp [dfold_exprs_pure assigns]
  | .mk (.Select assigns) m => by
    rw [dfold_transform]; simp [dfold_exprs_pure assigns]
  | .mk (.Aggregate assigns by_) m => by
    rw [dfold_transform]; simp [dfold_exprs_pure assigns, dfold_exprs_pure by_]
  | .mk (.Filter f) m => by
    rw [dfold_transform]; simp [dfold_expr_pure f]
  | .mk (.Sort items) m => by
    rw [dfold_transform]; simp [dfold_column_sorts_pure items]
  | .mk (.Join side with_ filter) m => by
    rw [dfold_transform]
    simp [dfold_table_ref_pure with_, dfold_join_filter_pure filter]
  | .mk (.Group by_ pipeline) m => by
    rw [dfold_transform]
    simp [dfold_exprs_pure by_, dfold_transforms_pure pipeline]
  | .mk (.Window kind range pipeline) m => by
    rw [dfold_transform]
    simp [dfold_range_pure range, dfold_transforms_pure pipeline]
  | .mk (.Take range by_ sort) m => by
    rw [dfold_transform]
    simp [dfold_range_pure range, dfold_exprs_pure by_,
      dfold_column_sorts_pure sort]
  | .mk .Unique m => by rw [dfold_transform]; simp
termination_by t => sizeOf t

theorem dfold_transforms_pure :
    ∀ (ts : List Transform), dfold_transforms (σ := σ) (ε := ε) ts = pure ts
  | [] => by rw [dfold_transforms]
  | t :: ts => by
    rw [dfold_transforms, dfold_transform_pure t, dfold_transforms_pure ts]; simp
termination_by ts => sizeOf ts

theorem dfold_join_filter_pure :
    ∀ (f : JoinFilter), dfold_join_filter (σ := σ) (ε := ε) f = pure f
  | .On nodes => by rw [dfold_join_filter, dfold_exprs_pure nodes]; simp
  | .Using nodes => by rw [dfold_join_filter, dfold_exprs_pure nodes]; simp
termination_by f => sizeOf f

theorem dfold_func_params_pure :
    ∀ (ps : List FuncParam), dfold_func_params (σ := σ) (ε := ε) ps = pure ps
  | [] => by rw [dfold_func_params]
  | .mk n t none :: ps => by
    rw [dfold_func_params]; simp [dfold_func_params_pure ps]
  | .mk n t (some x) :: ps => by
    rw [dfold_func_params]
    simp [dfold_expr_pure x, dfold_func_params_pure ps]
termination_by ps => sizeOf ps

end

theorem dfold_func_def_pure (fd : FuncDef) :
    dfold_func_def (σ := σ) (ε := ε) fd = pure fd := by
  cases fd with
  | mk n pp np b rt =>
    rw [dfold_func_def, dfold_func_params_pure pp, dfold_func_params_pure np,
      dfold_expr_pure b]
    simp [dfold_ident]

theorem dfold_table_pure (t : TableDef) :
    dfold_table (σ := σ) (ε := ε) t = pure t := by
  cases t with
  | mk i n p => rw [dfold_table, dfold_expr_pure p]; simp [dfold_ident]

theorem dfold_stmt_kind_pure (k : StmtKind) :
    dfold_stmt_kind (σ := σ) (ε := ε) k = pure k := by
  cases k with
  | FuncDef f => rw [dfold_stmt_kind, dfold_func_def_pure f]; simp
  | TableDef t => rw [dfold_stmt_kind, dfold_table_pure t]; simp
  | Pipeline exprs => rw [dfold_stmt_kind, dfold_exprs_pure exprs]; simp
  | QueryDef q => rw [dfold_stmt_kind]

theorem dfold_stmt_pure (st : Stmt) : dfold_stmt (σ := σ) (ε := ε) st = pure st := by
  rw [dfold_stmt, dfold_stmt_kind_pure st.kind]
  simp

theorem dfold_stmts_pure (stmts : List Stmt) :
    dfold_stmts (σ := σ) (ε := ε) stmts = pure stmts :=
  mapM_congr_pure dfold_stmt_pure stmts

theorem dfold_query_pure (q : Query) : dfold_query (σ := σ) (ε := ε) q = pure q := by
  have htab : ∀ (t : Table),
      (do
        let p ← dfold_transforms (σ := σ) (ε := ε) t.pipeline
        pure (Table.mk t.id t.name p)) = pure t := by
    intro t
    rw [dfold_transforms_pure t.pipeline]
    simp
  rw [dfold_query, dfold_transforms_pure q.main_pipeline,
    mapM_congr_pure htab q.tables]
  simp

/-! The free functions of the source, applied to the all-default
implementation, are also the identity, and consequently `defaultAstFold` is a
fixed point of the trait's default wiring: each of its methods agrees with
the corresponding default method body evaluated against `defaultAstFold`
itself.  This is what identifies `defaultAstFold` as the Lean rendering of a
Rust `impl AstFold` with no overridden method. -/

theorem defaultAstFold_stmt :
    (defaultAstFold (σ := σ) (ε := ε)).fold_stmt = dfold_stmt := rfl

theorem defaultAstFold_stmts :
    (defaultAstFold (σ := σ) (ε := ε)).fold_stmts = dfold_stmts := rfl

theorem defaultAstFold_expr :
    (defaultAstFold (σ := σ) (ε := ε)).fold_expr = dfold_expr := rfl

theorem defaultAstFold_expr_kind :
    (defaultAstFold (σ := σ) (ε := ε)).fold_expr_kind = dfold_expr_kind := rfl

theorem defaultAstFold_exprs :
    (defaultAstFold (σ := σ) (ε := ε)).fold_exprs = dfold_exprs := rfl

theorem defaultAstFold_ident :
    (defaultAstFold (σ := σ) (ε := ε)).fold_ident = dfold_ident := rfl

theorem defaultAstFold_table :
    (defaultAstFold (σ := σ) (ε := ε)).fold_table = dfold_table := rfl

theorem defaultAstFold_transform :
    (defaultAstFold (σ := σ) (ε := ε)).fold_transform = dfold_transform := rfl

theorem defaultAstFold_transforms :
    (defaultAstFold (σ := σ) (ε := ε)).fold_transforms = dfold_transforms := rfl

theorem defaultAstFold_pipeline :
    (defaultAstFold (σ := σ) (ε := ε)).fold_pipeline = dfold_pipeline := rfl

theorem defaultAstFold_func_def :
    (defaultAstFold (σ := σ) (ε := ε)).fold_func_def = dfold_func_def := rfl

theorem defaultAstFold_func_call :
    (defaultAstFold (σ := σ) (ε := ε)).fold_func_call = dfold_func_call := rfl

theorem defaultAstFold_func_curry :
    (defaultAstFold (σ := σ) (ε := ε)).fold_func_curry = dfold_func_curry := rfl

theorem defaultAstFold_table_ref :
    (defaultAstFold (σ := σ) (ε := ε)).fold_table_ref = dfold_table_ref := rfl

theorem defaultAstFold_interpolate_item :
    (defaultAstFold (σ := σ) (ε := ε)).fold_interpolate_item
      = dfold_interpolate_item := rfl

theorem defaultAstFold_column_sort :
    (defaultAstFold (σ := σ) (ε := ε)).fold_column_sort = dfold_column_sort := rfl

theorem defaultAstFold_column_sorts :
    (defaultAstFold (σ := σ) (ε := ε)).fold_column_sorts
      = dfold_column_sorts := rfl

theorem defaultAstFold_join_filter :
    (defaultAstFold (σ := σ) (ε := ε)).fold_join_filter = dfold_join_filter := rfl

theorem defaultAstFold_type :
    (defaultAstFold (σ := σ) (ε := ε)).fold_type = dfold_type := rfl

theorem defaultAstFold_windowed :
    (defaultAstFold (σ := σ) (ε := ε)).fold_windowed = dfold_windowed := rfl

theorem defaultAstFold_query :
    (defaultAstFold (σ := σ) (ε := ε)).fold_query = dfold_query := rfl

theorem fold_optional_box_default_pure (o : Option Expr) :
    fold_optional_box (defaultAstFold (σ := σ) (ε := ε)) o = pure o := by
  cases o with
  | none => rw [fold_optional_box]
  | some n =>
    rw [fold_optional_box, defaultAstFold_expr, dfold_expr_pure n]
    simp

theorem fold_range_default_pure (r : Range) :
    fold_range (defaultAstFold (σ := σ) (ε := ε)) r = pure r := by
  rw [fold_range, fold_optional_box_default_pure r.start,
    fold_optional_box_default_pure r.end_]
  cases r
  simp [Range.start, Range.end_]

mutual

theorem fold_type_default_pure :
    ∀ (t : Ty), fold_type (defaultAstFold (σ := σ) (ε := ε)) t = pure t
  | .Literal l => by rw [fold_type]
  | .Parameterized t p => by
    rw [fold_type, fold_type_default_pure t, defaultAstFold_expr,
      dfold_expr_pure p]
    simp
  | .AnyOf ts => by rw [fold_type, fold_type_list_default_pure ts]; simp
  | .Infer => by rw [fold_type]
termination_by t => sizeOf t

theorem fold_type_list_default_pure :
    ∀ (ts : List Ty), fold_type_list (defaultAstFold (σ := σ) (ε := ε)) ts = pure ts
  | [] => by rw [fold_type_list]
  | t :: ts => by
    rw [fold_type_list, fold_type_default_pure t, fold_type_list_default_pure ts]
    simp
termination_by ts => sizeOf ts

end

theorem fold_interpolate_item_default_pure (it : InterpolateItem) :
    fold_interpolate_item (defaultAstFold (σ := σ) (ε := ε)) it = pure it := by
  cases it with
  | String s => rw [fold_interpolate_item]
  | Expr e =>
    rw [fold_interpolate_item, defaultAstFold_expr, dfold_expr_pure e]
    simp

theorem fold_column_sort_default_pure (c : ColumnSort) :
    fold_column_sort (defaultAstFold (σ := σ) (ε := ε)) c = pure c := by
  cases c with
  | mk d x =>
    rw [fold_column_sort, defaultAstFold_expr, dfold_expr_pure]
    simp [ColumnSort.direction, ColumnSort.column]

theorem fold_join_filter_default_pure (f : JoinFilter) :
    fold_join_filter (defaultAstFold (σ := σ) (ε := ε)) f = pure f := by
  cases f with
  | On nodes => rw [fold_join_filter, defaultAstFold_exprs, dfold_exprs_pure]; simp
  | Using nodes =>
    rw [fold_join_filter, defaultAstFold_exprs, dfold_exprs_pure]; simp

theorem fold_windowed_default_pure (w : Windowed) :
    fold_windowed (defaultAstFold (σ := σ) (ε := ε)) w = pure w := by
  cases w with
  | mk e g s kr =>
    obtain ⟨k, r⟩ := kr
    simp [fold_windowed, Windowed.expr, Windowed.group, Windowed.sort,
      Windowed.window, defaultAstFold_expr, defaultAstFold_exprs,
      defaultAstFold_column_sorts, dfold_expr_pure, dfold_exprs_pure,
      dfold_column_sorts_pure, fold_range_default_pure]

theorem fold_func_call_default_pure (fc : FuncCall) :
    fold_func_call (defaultAstFold (σ := σ) (ε := ε)) fc = pure fc := by
  have hna : ∀ (ne : String × Expr),
      (do pure (ne.1, ← dfold_expr ne.2))
        = (pure ne : FoldM σ ε (String × Expr)) := by
    intro ne
    rw [dfold_expr_pure]
    simp
  cases fc with
  | mk n args na =>
    rw [fold_func_call, defaultAstFold_expr, mapM_congr_pure dfold_expr_pure,
      mapM_congr_pure hna]
    simp [FuncCall.name, FuncCall.args, FuncCall.named_args]

theorem fold_func_curry_default_pure (fc : FuncCurry) :
    fold_func_curry (defaultAstFold (σ := σ) (ε := ε)) fc = pure fc := by
  have hna : ∀ (o : Option Expr),
      (match o with
        | none => pure none
        | some e => do pure (some (← dfold_expr e)))
        = (pure o : FoldM σ ε (Option Expr)) := by
    intro o
    cases o with
    | none => rfl
    | some e => simp [dfold_expr_pure]
  cases fc with
  | mk d args na =>
    rw [fold_func_curry, defaultAstFold_expr, mapM_congr_pure dfold_expr_pure,
      mapM_congr_pure hna]
    simp [FuncCurry.def_id, FuncCurry.args, FuncCurry.named_args]

theorem fold_table_ref_default_pure (t : TableRef) :
    fold_table_ref (defaultAstFold (σ := σ) (ε := ε)) t = pure t := by
  cases t with
  | mk n a i =>
    cases a <;> simp [fold_table_ref, defaultAstFold_ident, dfold_ident]

theorem fold_func_param_default_pure (ps : List FuncParam) :
    fold_func_param (defaultAstFold (σ := σ) (ε := ε)) ps = pure ps := by
  have hp : ∀ (param : FuncParam),
      ((match param.default_value with
        | none => pure none
        | some n => do pure (some (← (defaultAstFold (σ := σ) (ε := ε)).fold_expr n)))
      >>= fun dv => pure (FuncParam.mk param.name param.ty dv)) = pure param := by
    intro param
    cases param with
    | mk n t dv =>
      cases dv with
      | none => simp [FuncParam.default_value, FuncParam.name, FuncParam.ty]
      | some x =>
        simp [FuncParam.default_value, FuncParam.name, FuncParam.ty,
          defaultAstFold_expr, dfold_expr_pure]
  rw [fold_func_param, mapM_congr_pure hp]

theorem fold_func_def_default_pure (fd : FuncDef) :
    fold_func_def (defaultAstFold (σ := σ) (ε := ε)) fd = pure fd := by
  cases fd with
  | mk n pp np b rt =>
    rw [fold_func_def, defaultAstFold_ident, defaultAstFold_expr,
      fold_func_param_default_pure, fold_func_param_default_pure,
      dfold_expr_pure]
    simp [dfold_ident, FuncDef.name, FuncDef.positional_params,
      FuncDef.named_params, FuncDef.body, FuncDef.return_ty]

theorem fold_transforms_default_pure (ts : List Transform) :
    fold_transforms (defaultAstFold (σ := σ) (ε := ε)) ts = pure ts := by
  rw [fold_transforms, defaultAstFold_transform,
    mapM_congr_pure dfold_transform_pure]

theorem fold_pipeline_default_pure (p : Pipeline) :
    fold_pipeline (defaultAstFold (σ := σ) (ε := ε)) p = pure p := by
  cases p with
  | mk es =>
    rw [fold_pipeline, defaultAstFold_exprs, dfold_exprs_pure]
    simp [Pipeline.exprs]

theorem fold_expr_kind_default_pure (k : ExprKind) :
    fold_expr_kind (defaultAstFold (σ := σ) (ε := ε)) k = pure k := by
  cases k with
  | Ident i => simp [fold_expr_kind, defaultAstFold_ident, dfold_ident]
  | Binary op left right =>
    rw [fold_expr_kind, defaultAstFold_expr, dfold_expr_pure left,
      dfold_expr_pure right]
    simp
  | Unary op e =>
    rw [fold_expr_kind, defaultAstFold_expr, dfold_expr_pure e]; simp
  | List items =>
    rw [fold_expr_kind, defaultAstFold_exprs, dfold_exprs_pure items]; simp
  | Range r => rw [fold_expr_kind, fold_range_default_pure r]; simp
  | Pipeline p =>
    rw [fold_expr_kind, defaultAstFold_pipeline, dfold_pipeline_pure p]; simp
  | SString items =>
    rw [fold_expr_kind, defaultAstFold_interpolate_item,
      mapM_congr_pure dfold_interpolate_item_pure]
    simp
  | FString items =>
    rw [fold_expr_kind, defaultAstFold_interpolate_item,
      mapM_congr_pure dfold_interpolate_item_pure]
    simp
  | FuncCall fc =>
    rw [fold_expr_kind, defaultAstFold_func_call, dfold_func_call_pure fc]; simp
  | FuncCurry fc =>
    rw [fold_expr_kind, defaultAstFold_func_curry, dfold_func_curry_pure fc]
    simp
  | Windowed w =>
    rw [fold_expr_kind, defaultAstFold_windowed, dfold_windowed_pure w]; simp
  | «Type» t =>
    rw [fold_expr_kind, defaultAstFold_type, dfold_type_pure t]; simp
  | ResolvedPipeline ts =>
    rw [fold_expr_kind, defaultAstFold_transforms, dfold_transforms_pure ts]
    simp
  | Empty => rw [fold_expr_kind]
  | Literal l => rw [fold_expr_kind]
  | Interval i => rw [fold_expr_kind]

theorem fold_stmt_kind_default_pure (k : StmtKind) :
    fold_stmt_kind (defaultAstFold (σ := σ) (ε := ε)) k = pure k := by
  cases k with
  | FuncDef f =>
    rw [fold_stmt_kind, defaultAstFold_func_def, dfold_func_def_pure f]; simp
  | TableDef t =>
    rw [fold_stmt_kind, defaultAstFold_table, dfold_table_pure t]; simp
  | Pipeline exprs =>
    rw [fold_stmt_kind, defaultAstFold_exprs, dfold_exprs_pure exprs]; simp
  | QueryDef q => rw [fold_stmt_kind]

theorem fold_transform_default_pure (t : Transform) :
    fold_transform (defaultAstFold (σ := σ) (ε := ε)) t = pure t := by
  cases t with
  | mk k m =>
    cases k <;>
      simp [fold_transform, Transform.kind, Transform.meta,
        defaultAstFold_table_ref, defaultAstFold_exprs, defaultAstFold_expr,
        defaultAstFold_column_sorts, defaultAstFold_join_filter,
        defaultAstFold_transforms, dfold_table_ref_pure, dfold_exprs_pure,
        dfold_expr_pure, dfold_column_sorts_pure, dfold_join_filter_pure,
        dfold_transforms_pure, fold_range_default_pure]

theorem fold_query_default_pure (q : Query) :
    fold_query (defaultAstFold (σ := σ) (ε := ε)) q = pure q := by
  have htab : ∀ (t : Table),
      (do
        let p ← dfold_transforms (σ := σ) (ε := ε) t.pipeline
        pure (Table.mk t.id t.name p)) = pure t := by
    intro t
    rw [dfold_transforms_pure t.pipeline]
    simp
  rw [fold_query, defaultAstFold_transforms, dfold_transforms_pure,
    mapM_congr_pure htab]
  simp

/-- The all-default implementation satisfies the trait's wiring: every one of
its methods coincides with the corresponding default method body (for methods
whose Rust default delegates to a free function, with that free function)
evaluated against `defaultAstFold` itself.  Hence `defaultAstFold` is exactly
the fold "whose every overridable method is the default implementation". -/
theorem defaultAstFold_fixed_point (σ ε : Type) :
    (defaultAstFold (σ := σ) (ε := ε)).fold_stmt = default_fold_stmt defaultAstFold
    ∧ (defaultAstFold (σ := σ) (ε := ε)).fold_stmts
        = default_fold_stmts defaultAstFold
    ∧ (defaultAstFold (σ := σ) (ε := ε)).fold_expr
        = default_fold_expr defaultAstFold
    ∧ (defaultAstFold (σ := σ) (ε := ε)).fold_expr_kind
        = fold_expr_kind defaultAstFold
    ∧ (defaultAstFold (σ := σ) (ε := ε)).fold_exprs
        = default_fold_exprs defaultAstFold
    ∧ (defaultAstFold (σ := σ) (ε := ε)).fold_ident
        = default_fold_ident defaultAstFold
    ∧ (defaultAstFold (σ := σ) (ε := ε)).fold_table
        = default_fold_table defaultAstFold
    ∧ (defaultAstFold (σ := σ) (ε := ε)).fold_transform
        = fold_transform defaultAstFold
    ∧ (defaultAstFold (σ := σ) (ε := ε)).fold_transforms
        = fold_transforms defaultAstFold
    ∧ (defaultAstFold (σ := σ) (ε := ε)).fold_pipeline
        = fold_pipeline defaultAstFold
    ∧ (defaultAstFold (σ := σ) (ε := ε)).fold_func_def
        = fold_func_def defaultAstFold
    ∧ (defaultAstFold (σ := σ) (ε := ε)).fold_func_call
        = fold_func_call defaultAstFold
    ∧ (defaultAstFold (σ := σ) (ε := ε)).fold_func_curry
        = fold_func_curry defaultAstFold
    ∧ (defaultAstFold (σ := σ) (ε := ε)).fold_table_ref
        = fold_table_ref defaultAstFold
    ∧ (defaultAstFold (σ := σ) (ε := ε)).fold_interpolate_item
        = fold_interpolate_item defaultAstFold
    ∧ (defaultAstFold (σ := σ) (ε := ε)).fold_column_sort
        = fold_column_sort defaultAstFold
    ∧ (defaultAstFold (σ := σ) (ε := ε)).fold_column_sorts
        = default_fold_column_sorts defaultAstFold
    ∧ (defaultAstFold (σ := σ) (ε := ε)).fold_join_filter
        = fold_join_filter defaultAstFold
    ∧ (defaultAstFold (σ := σ) (ε := ε)).fold_type = fold_type defaultAstFold
    ∧ (defaultAstFold (σ := σ) (ε := ε)).fold_windowed
        = fold_windowed defaultAstFold
    ∧ (defaultAstFold (σ := σ) (ε := ε)).fold_query
        = fold_query defaultAstFold := by
  refine ⟨?_, ?_, ?_, ?_, ?_, ?_, ?_, ?_, ?_, ?_, ?_,
    ?_, ?_, ?_, ?_, ?_, ?_, ?_, ?_, ?_, ?_⟩
  · funext st
    show dfold_stmt st = _
    rw [dfold_stmt_pure, default_fold_stmt, fold_stmt_kind_default_pure]
    simp
  · rfl
  · funext e
    cases e with
    | mk k m =>
      show dfold_expr (.mk k m) = _
      rw [dfold_expr, default_fold_expr, defaultAstFold_expr_kind]
      simp [Expr.kind, Expr.meta]
  · funext k
    show dfold_expr_kind k = _
    rw [dfold_expr_kind_pure, fold_expr_kind_default_pure]
  · funext l
    show dfold_exprs l = _
    rw [dfold_exprs_pure, default_fold_exprs, defaultAstFold_expr,
      mapM_congr_pure dfold_expr_pure]
  · rfl
  · funext t
    cases t with
    | mk i n p =>
      show dfold_table (.mk i n p) = _
      rw [dfold_table, default_fold_table, defaultAstFold_ident,
        defaultAstFold_expr]
      simp [TableDef.id, TableDef.name, TableDef.pipeline]
  · funext t
    show dfold_transform t = _
    rw [dfold_transform_pure, fold_transform_default_pure]
  · funext ts
    show dfold_transforms ts = _
    rw [dfold_transforms_pure, fold_transforms_default_pure]
  · funext p
    show dfold_pipeline p = _
    rw [dfold_pipeline_pure, fold_pipeline_default_pure]
  · funext fd
    show dfold_func_def fd = _
    rw [dfold_func_def_pure, fold_func_def_default_pure]
  · funext fc
    show dfold_func_call fc = _
    rw [dfold_func_call_pure, fold_func_call_default_pure]
  · funext fc
    show dfold_func_curry fc = _
    rw [dfold_func_curry_pure, fold_func_curry_default_pure]
  · funext t
    show dfold_table_ref t = _
    rw [dfold_table_ref_pure, fold_table_ref_default_pure]
  · funext it
    show dfold_interpolate_item it = _
    rw [dfold_interpolate_item_pure, fold_interpolate_item_default_pure]
  · funext c
    show dfold_column_sort c = _
    rw [dfold_column_sort_pure, fold_column_sort_default_pure]
  · funext cs
    show dfold_column_sorts cs = _
    rw [dfold_column_sorts_pure, default_fold_column_sorts,
      defaultAstFold_column_sort, mapM_congr_pure dfold_column_sort_pure]
  · funext f
    show dfold_join_filter f = _
    rw [dfold_join_filter_pure, fold_join_filter_default_pure]
  · funext t
    show dfold_type t = _
    rw [dfold_type_pure, fold_type_default_pure]
  · funext w
    show dfold_windowed w = _
    rw [dfold_windowed_pure, fold_windowed_default_pure]
  · funext q
    show dfold_query q = _
    rw [dfold_query_pure, fold_query_default_pure]

/-- C1: applying a fold whose every overridable method is the default
implementation (pure structural recursion, no overrides — the fixed point
`defaultAstFold` of the trait's default wiring) to any well-formed `Query`,
`Stmt`, or `Expr` succeeds and returns a tree equal to the input, leaving the
implementer state unchanged. -/
theorem identity_fold_roundtrip (σ ε : Type) (q : Query) (st : Stmt) (e : Expr) :
    (defaultAstFold (σ := σ) (ε := ε)).fold_query q = pure q
    ∧ (defaultAstFold (σ := σ) (ε := ε)).fold_stmt st = pure st
    ∧ (defaultAstFold (σ := σ) (ε := ε)).fold_expr e = pure e :=
  ⟨dfold_query_pure q, dfold_stmt_pure st, dfold_expr_pure e⟩

/-- C5: under the all-default fold, the leaf variants are returned unchanged:
`ExprKind::Empty`, `ExprKind::Literal(_)`, `ExprKind::Interval(_)`, the
`Unique` transform (with its other fields), `StmtKind::QueryDef(_)`,
`Ty::Literal(_)`, and `InterpolateItem::String(_)` with the same string
content. -/
theorem leaf_variants_passthrough (σ ε : Type) (l : Lit) (iv : Interval)
    (m : Nat) (q : QueryDefData) (tl : TyLit) (s : String) :
    (defaultAstFold (σ := σ) (ε := ε)).fold_expr_kind .Empty = pure .Empty
    ∧ (defaultAstFold (σ := σ) (ε := ε)).fold_expr_kind (.Literal l)
        = pure (.Literal l)
    ∧ (defaultAstFold (σ := σ) (ε := ε)).fold_expr_kind (.Interval iv)
        = pure (.Interval iv)
    ∧ (defaultAstFold (σ := σ) (ε := ε)).fold_transform (.mk .Unique m)
        = pure (.mk .Unique m)
    ∧ fold_stmt_kind (defaultAstFold (σ := σ) (ε := ε)) (.QueryDef q)
        = pure (.QueryDef q)
    ∧ (defaultAstFold (σ := σ) (ε := ε)).fold_type (.Literal tl)
        = pure (.Literal tl)
    ∧ (defaultAstFold (σ := σ) (ε := ε)).fold_interpolate_item (.String s)
        = pure (.String s) :=
  ⟨dfold_expr_kind_pure .Empty, dfold_expr_kind_pure (.Literal l),
    dfold_expr_kind_pure (.Interval iv), dfold_transform_pure (.mk .Unique m),
    fold_stmt_kind_default_pure (.QueryDef q), dfold_type_pure (.Literal tl),
    dfold_interpolate_item_pure (.String s)⟩

/-- C2, counterexample: the claim that the `Type(Ty)` branch of the default
expression folding bypasses the overridable `fold_type` hook is false.  With
the fold that overrides `fold_type` to count its invocations, folding the
expression kind `Type(Literal "int")` from counter 0 ends with counter 1 —
the override was invoked — whereas the free function `fold_type`, which the
claim says is called, leaves the counter at 0. -/
theorem type_branch_counterexample :
    fold_expr_kind tyCountFold (.«Type» (Ty.Literal ("int"))) 0
      = .ok (.«Type» (Ty.Literal ("int")), 1)
    ∧ fold_type tyCountFold (Ty.Literal ("int")) 0
      = .ok (Ty.Literal ("int"), 0) := by
  constructor
  · rfl
  · rw [fold_type]; rfl

/-- C2, amended: when the default expression folding encounters an
`ExprKind::Type(Ty)` wrapper, the contained type is folded through the
overridable `fold_type` method of the fold implementation (so an override is
invoked there); the direct calls that bypass the override are the recursive
calls inside the free function `fold_type` itself, which fold nested types
(`AnyOf` members, `Parameterized`'s type argument) without consulting the
implementation, as witnessed by the result being independent of `F`. -/
theorem type_branch_amended (σ ε : Type) (F : AstFold σ ε) (t : Ty)
    (tl : TyLit) (s : σ) :
    fold_expr_kind F (.«Type» t) = (do pure (.«Type» (← F.fold_type t)))
    ∧ fold_type F (Ty.AnyOf [Ty.Literal tl]) s
        = .ok (Ty.AnyOf [Ty.Literal tl], s) := by
  constructor
  · rw [fold_expr_kind]
  · rw [fold_type, fold_type_list, fold_type, fold_type_list]
    simp
    rfl

/-- C9: for every fold implementation — in particular ones that override
`fold_expr_kind` or the kind handling — the default `fold_stmt`, the default
`fold_expr`, and `fold_transform` replace only the `kind` field of the node:
the `meta` field (standing for all other fields) of the output equals that of
the input whenever the fold succeeds. -/
theorem only_kind_replaced (σ ε : Type) (F : AstFold σ ε) :
    (∀ (st : Stmt) (s : σ) (st' : Stmt) (s' : σ),
      default_fold_stmt F st s = .ok (st', s') → st'.meta = st.meta)
    ∧ (∀ (e : Expr) (s : σ) (e' : Expr) (s' : σ),
      default_fold_expr F e s = .ok (e', s') → e'.meta = e.meta)
    ∧ (∀ (t : Transform) (s : σ) (t' : Transform) (s' : σ),
      fold_transform F t s = .ok (t', s') → t'.meta = t.meta) := by
  refine ⟨?_, ?_, ?_⟩
  · intro st s st' s' h
    rw [default_fold_stmt] at h
    obtain ⟨k, s₁, _, hp⟩ := foldM_bind_eq_ok.1 h
    obtain ⟨rfl, rfl⟩ := foldM_pure_eq_ok.1 hp
    rfl
  · intro e s e' s' h
    rw [default_fold_expr] at h
    obtain ⟨k, s₁, _, hp⟩ := foldM_bind_eq_ok.1 h
    obtain ⟨rfl, rfl⟩ := foldM_pure_eq_ok.1 hp
    rfl
  · intro t s t' s' h
    rw [fold_transform] at h
    obtain ⟨k, s₁, _, hp⟩ := foldM_bind_eq_ok.1 h
    obtain ⟨rfl, rfl⟩ := foldM_pure_eq_ok.1 hp
    rfl

/-- Witness for C9: a fold that overrides `fold_expr_kind` to erase the kind
satisfies the hypotheses at a concrete expression, and the conclusion holds
there. -/
theorem only_kind_replaced_witness :
    default_fold_expr kindEraseFold (Expr.mk (.Literal ("x")) 5) 0
      = .ok (Expr.mk .Empty 5, 0)
    ∧ (Expr.mk .Empty 5).meta = (Expr.mk (.Literal ("x")) 5).meta :=
  ⟨rfl, (only_kind_replaced Nat Unit kindEraseFold).2.1
    (Expr.mk (.Literal ("x")) 5) 0 (Expr.mk .Empty 5) 0 rfl⟩

/-- C10: fields not named by the traversal contract are left untouched for
every fold implementation: `fold_func_def` returns `return_ty` unchanged,
`fold_func_param` rewrites only `default_value` and copies the other
`FuncParam` fields, `fold_query` returns `def` unchanged, and
`fold_table_ref` copies the `TableRef` fields other than `name` and `alias`
(represented by `id`). -/
theorem untouched_fields (σ ε : Type) (F : AstFold σ ε) :
    (∀ (fd : FuncDef) (s : σ) (fd' : FuncDef) (s' : σ),
      fold_func_def F fd s = .ok (fd', s') → fd'.return_ty = fd.return_ty)
    ∧ (∀ (ps : List FuncParam) (s : σ) (ps' : List FuncParam) (s' : σ),
      fold_func_param F ps s = .ok (ps', s') →
        List.Forall₂ (fun p p' => p'.name = p.name ∧ p'.ty = p.ty) ps ps')
    ∧ (∀ (q : Query) (s : σ) (q' : Query) (s' : σ),
      fold_query F q s = .ok (q', s') → q'.def_ = q.def_)
    ∧ (∀ (t : TableRef) (s : σ) (t' : TableRef) (s' : σ),
      fold_table_ref F t s = .ok (t', s') → t'.id = t.id) := by
  refine ⟨?_, ?_, ?_, ?_⟩
  · intro fd s fd' s' h
    rw [fold_func_def] at h
    obtain ⟨n, s₁, _, h⟩ := foldM_bind_eq_ok.1 h
    obtain ⟨pp, s₂, _, h⟩ := foldM_bind_eq_ok.1 h
    obtain ⟨np, s₃, _, h⟩ := foldM_bind_eq_ok.1 h
    obtain ⟨b, s₄, _, h⟩ := foldM_bind_eq_ok.1 h
    obtain ⟨rfl, rfl⟩ := foldM_pure_eq_ok.1 h
    rfl
  · intro ps s ps' s' h
    rw [fold_func_param] at h
    refine (mapM_eq_ok_forall₂ h).imp ?_
    intro p p' hr
    obtain ⟨s₁, s₂, hg⟩ := hr
    obtain ⟨dv, s₃, _, hp⟩ := foldM_bind_eq_ok.1 hg
    obtain ⟨rfl, rfl⟩ := foldM_pure_eq_ok.1 hp
    exact ⟨rfl, rfl⟩
  · intro q s q' s' h
    rw [fold_query] at h
    obtain ⟨mp, s₁, _, h⟩ := foldM_bind_eq_ok.1 h
    obtain ⟨ts, s₂, _, h⟩ := foldM_bind_eq_ok.1 h
    obtain ⟨rfl, rfl⟩ := foldM_pure_eq_ok.1 h
    rfl
  · intro t s t' s' h
    rw [fold_table_ref] at h
    obtain ⟨n, s₁, _, h⟩ := foldM_bind_eq_ok.1 h
    obtain ⟨a, s₂, _, h⟩ := foldM_bind_eq_ok.1 h
    obtain ⟨rfl, rfl⟩ := foldM_pure_eq_ok.1 h
    rfl

/-- Witness for C10: the four untouched-field conclusions hold at concrete
inputs, with every success hypothesis discharged by computation. -/
theorem untouched_fields_witness :
    (FuncDef.mk ("f") [] [] (Expr.mk .Empty 0) none).return_ty
      = (FuncDef.mk ("f") [] [] (Expr.mk .Empty 0) none).return_ty
    ∧ List.Forall₂ (fun p p' => p'.name = p.name ∧ p'.ty = p.ty)
        [FuncParam.mk ("p") none none] [FuncParam.mk ("p") none none]
    ∧ (Query.mk ("q") [] []).def_ = (Query.mk ("q") [] []).def_
    ∧ (TableRef.mk ("t") none 3).id = (TableRef.mk ("t") none 3).id :=
  ⟨(untouched_fields Nat Unit pureFold).1
      (FuncDef.mk ("f") [] [] (Expr.mk .Empty 0) none) 0
      (FuncDef.mk ("f") [] [] (Expr.mk .Empty 0) none) 0 rfl,
    (untouched_fields Nat Unit pureFold).2.1
      [FuncParam.mk ("p") none none] 0 [FuncParam.mk ("p") none none] 0 rfl,
    (untouched_fields Nat Unit pureFold).2.2.1
      (Query.mk ("q") [] []) 0 (Query.mk ("q") [] []) 0 rfl,
    (untouched_fields Nat Unit pureFold).2.2.2
      (TableRef.mk ("t") none 3) 0 (TableRef.mk ("t") none 3) 0 rfl⟩

/-- C4: for every `FuncCurry` and every fold implementation, a successful
`fold_func_curry` preserves the number and positions of the `named_args`
slots, and relates them slot-wise: an unfilled slot (`none`) stays unfilled,
and a filled slot `some e` becomes `some e'` where `e'` is the result of the
implementation's `fold_expr` on `e`; a slot is never switched between filled
and unfilled. -/
theorem func_curry_slots (σ ε : Type) (F : AstFold σ ε) (fc : FuncCurry)
    (s s' : σ) (fc' : FuncCurry)
    (h : fold_func_curry F fc s = .ok (fc', s')) :
    fc'.named_args.length = fc.named_args.length
    ∧ List.Forall₂ (fun o o' =>
        (o = none ∧ o' = none)
        ∨ ∃ e e' s₁ s₂, o = some e ∧ o' = some e'
            ∧ F.fold_expr e s₁ = .ok (e', s₂))
        fc.named_args fc'.named_args := by
  rw [fold_func_curry] at h
  obtain ⟨args, s₁, _, h⟩ := foldM_bind_eq_ok.1 h
  obtain ⟨named, s₂, hna, h⟩ := foldM_bind_eq_ok.1 h
  obtain ⟨rfl, rfl⟩ := foldM_pure_eq_ok.1 h
  have hf : List.Forall₂ (fun o o' =>
      (o = none ∧ o' = none)
      ∨ ∃ e e' s₁ s₂, o = some e ∧ o' = some e'
          ∧ F.fold_expr e s₁ = .ok (e', s₂)) fc.named_args named := by
    refine (mapM_eq_ok_forall₂ hna).imp ?_
    intro o o' hr
    obtain ⟨s₃, s₄, hg⟩ := hr
    cases o with
    | none =>
      obtain ⟨rfl, rfl⟩ := foldM_pure_eq_ok.1 hg
      exact Or.inl ⟨rfl, rfl⟩
    | some e =>
      obtain ⟨e', s₅, he, hp⟩ := foldM_bind_eq_ok.1 hg
      obtain ⟨rfl, rfl⟩ := foldM_pure_eq_ok.1 hp
      exact Or.inr ⟨e, e', s₃, s₄, rfl, rfl, he⟩
  exact ⟨(List.Forall₂.length_eq hf).symm, hf⟩

/-- Witness for C4: the inert fold on a curry with one unfilled and one
filled slot; the success hypothesis is discharged by computation. -/
theorem func_curry_slots_witness :
    fold_func_curry (pureFold (σ := Nat) (ε := Unit))
        (FuncCurry.mk 7 [] [none, some (Expr.mk .Empty 3)]) 0
      = .ok (FuncCurry.mk 7 [] [none, some (Expr.mk .Empty 3)], 0)
    ∧ (FuncCurry.mk 7 [] [none, some (Expr.mk .Empty 3)]).named_args.length
        = (FuncCurry.mk 7 [] [none, some (Expr.mk .Empty 3)]).named_args.length :=
  ⟨rfl, (func_curry_slots Nat Unit pureFold
    (FuncCurry.mk 7 [] [none, some (Expr.mk .Empty 3)]) 0 0
    (FuncCurry.mk 7 [] [none, some (Expr.mk .Empty 3)]) rfl).1⟩

/-- C6: for every fold implementation, a successful `fold_func_call` returns
a call whose `name` equals the input's `name` (independently of the
implementation, hence not rewritten even via `fold_ident`), whose `args` are
element-wise results of `fold_expr` in order, and whose `named_args` keep
each name associated with the `fold_expr` result of its value; likewise a
successful `fold_func_curry` preserves `def_id`. -/
theorem func_call_identity_fields (σ ε : Type) (F : AstFold σ ε)
    (fc fc' : FuncCall) (fcu fcu' : FuncCurry) (s s' t t' : σ)
    (h1 : fold_func_call F fc s = .ok (fc', s'))
    (h2 : fold_func_curry F fcu t = .ok (fcu', t')) :
    fc'.name = fc.name
    ∧ List.Forall₂ (fun a b => ∃ s₁ s₂, F.fold_expr a s₁ = .ok (b, s₂))
        fc.args fc'.args
    ∧ List.Forall₂ (fun p p' => p'.1 = p.1
        ∧ ∃ s₁ s₂, F.fold_expr p.2 s₁ = .ok (p'.2, s₂))
        fc.named_args fc'.named_args
    ∧ fcu'.def_id = fcu.def_id := by
  rw [fold_func_call] at h1
  obtain ⟨args, s₁, hargs, h1⟩ := foldM_bind_eq_ok.1 h1
  obtain ⟨named, s₂, hna, h1⟩ := foldM_bind_eq_ok.1 h1
  obtain ⟨rfl, rfl⟩ := foldM_pure_eq_ok.1 h1
  rw [fold_func_curry] at h2
  obtain ⟨cargs, t₁, _, h2⟩ := foldM_bind_eq_ok.1 h2
  obtain ⟨cnamed, t₂, _, h2⟩ := foldM_bind_eq_ok.1 h2
  obtain ⟨rfl, rfl⟩ := foldM_pure_eq_ok.1 h2
  refine ⟨rfl, mapM_eq_ok_forall₂ hargs, ?_, rfl⟩
  refine (mapM_eq_ok_forall₂ hna).imp ?_
  intro p p' hr
  obtain ⟨s₃, s₄, hg⟩ := hr
  obtain ⟨e', s₅, he, hp⟩ := foldM_bind_eq_ok.1 hg
  obtain ⟨rfl, rfl⟩ := foldM_pure_eq_ok.1 hp
  exact ⟨rfl, s₃, s₄, he⟩

/-- Witness for C6: the inert fold on a concrete call and curry; both success
hypotheses are discharged by computation. -/
theorem func_call_identity_fields_witness :
    fold_func_call (pureFold (σ := Nat) (ε := Unit))
        (FuncCall.mk ("f") [Expr.mk .Empty 0] [(("a"), Expr.mk .Empty 1)]) 0
      = .ok (FuncCall.mk ("f") [Expr.mk .Empty 0] [(("a"), Expr.mk .Empty 1)], 0)
    ∧ (FuncCall.mk ("f") [Expr.mk .Empty 0] [(("a"), Expr.mk .Empty 1)]).name
        = (FuncCall.mk ("f") [Expr.mk .Empty 0] [(("a"), Expr.mk .Empty 1)]).name :=
  ⟨rfl, (func_call_identity_fields Nat Unit pureFold
    (FuncCall.mk ("f") [Expr.mk .Empty 0] [(("a"), Expr.mk .Empty 1)])
    (FuncCall.mk ("f") [Expr.mk .Empty 0] [(("a"), Expr.mk .Empty 1)])
    (FuncCurry.mk 5 [] []) (FuncCurry.mk 5 [] []) 0 0 0 0 rfl rfl).1⟩

/-- C8: for every `Query` and fold implementation, a successful `fold_query`
folds `main_pipeline` through the implementation's `fold_transforms`, returns
a `tables` list of the same length in the same order, and each output table
keeps the corresponding input table's `id` and `name` (independently of the
implementation, hence not via `fold_ident`) while its `pipeline` is a
`fold_transforms` result. -/
theorem query_fold_structure (σ ε : Type) (F : AstFold σ ε) (q q' : Query)
    (s s' : σ) (h : fold_query F q s = .ok (q', s')) :
    (∃ s₁, F.fold_transforms q.main_pipeline s = .ok (q'.main_pipeline, s₁))
    ∧ q'.tables.length = q.tables.length
    ∧ List.Forall₂ (fun t t' => t'.id = t.id ∧ t'.name = t.name
        ∧ ∃ s₁ s₂, F.fold_transforms t.pipeline s₁ = .ok (t'.pipeline, s₂))
        q.tables q'.tables := by
  rw [fold_query] at h
  obtain ⟨mp, s₁, hmp, h⟩ := foldM_bind_eq_ok.1 h
  obtain ⟨ts, s₂, hts, h⟩ := foldM_bind_eq_ok.1 h
  obtain ⟨rfl, rfl⟩ := foldM_pure_eq_ok.1 h
  have hf : List.Forall₂ (fun t t' => t'.id = t.id ∧ t'.name = t.name
      ∧ ∃ s₁ s₂, F.fold_transforms t.pipeline s₁ = .ok (t'.pipeline, s₂))
      q.tables ts := by
    refine (mapM_eq_ok_forall₂ hts).imp ?_
    intro t t' hr
    obtain ⟨s₃, s₄, hg⟩ := hr
    obtain ⟨p, s₅, hp, hpure⟩ := foldM_bind_eq_ok.1 hg
    obtain ⟨rfl, rfl⟩ := foldM_pure_eq_ok.1 hpure
    exact ⟨rfl, rfl, s₃, s₄, hp⟩
  exact ⟨⟨s₁, hmp⟩, (List.Forall₂.length_eq hf).symm, hf⟩

/-- Witness for C8: the inert fold on a query with one table; the success
hypothesis is discharged by computation. -/
theorem query_fold_structure_witness :
    fold_query (pureFold (σ := Nat) (ε := Unit)) (Query.mk ("q") [] [Table.mk 1 ("t") []]) 0
      = .ok (Query.mk ("q") [] [Table.mk 1 ("t") []], 0)
    ∧ (Query.mk ("q") [] [Table.mk 1 ("t") []]).tables.length
        = (Query.mk ("q") [] [Table.mk 1 ("t") []]).tables.length :=
  ⟨rfl, (query_fold_structure Nat Unit pureFold
    (Query.mk ("q") [] [Table.mk 1 ("t") []])
    (Query.mk ("q") [] [Table.mk 1 ("t") []]) 0 0 rfl).2.1⟩

/-- C3: folding is fail-fast.  For any fold implementation whose `fold_exprs`
is the default wiring (mapping its own `fold_expr`), if folding the first
element of a three-element `Derive` assignment list succeeds and folding the
second fails, then `fold_transform` on the whole `Derive` returns exactly
that error — and this holds for every third element `c`, so the fold of the
third element is never invoked and cannot influence the result. -/
theorem derive_fail_fast (σ ε : Type) (F : AstFold σ ε)
    (hF : F.fold_exprs = default_fold_exprs F)
    (a b : Expr) (m : Nat) (s₀ s₁ : σ) (a' : Expr) (err : ε)
    (ha : F.fold_expr a s₀ = .ok (a', s₁))
    (hb : F.fold_expr b s₁ = .error err) (c : Expr) :
    fold_transform F (Transform.mk (.Derive [a, b, c]) m) s₀ = .error err := by
  have h1 : ([b, c].mapM F.fold_expr) s₁
      = (Except.error err : Except ε (List Expr × σ)) := by
    rw [List.mapM_cons]
    exact foldM_bind_error hb
  have hmap : F.fold_exprs [a, b, c] s₀ = .error err := by
    rw [hF, default_fold_exprs, List.mapM_cons, foldM_bind_ok ha]
    exact foldM_bind_error h1
  have h2 : (F.fold_exprs [a, b, c] >>= fun l => pure (TransformKind.Derive l)) s₀
      = (Except.error err : Except ε (TransformKind × σ)) :=
    foldM_bind_error hmap
  rw [fold_transform]
  simp only [Transform.kind]
  exact foldM_bind_error h2

/-- Witness for C3: the fold that fails exactly on `meta = 1` expressions,
applied to a `Derive` of three expressions with `meta` 0, 1, 2: the default
wiring, the success on the first element and the failure on the second are
all discharged by computation, and the whole transform fold returns the
error. -/
theorem derive_fail_fast_witness :
    fold_transform failFold
        (Transform.mk
          (.Derive [Expr.mk .Empty 0, Expr.mk .Empty 1, Expr.mk .Empty 2]) 9) 0
      = .error 42 :=
  derive_fail_fast Nat Nat failFold rfl (Expr.mk .Empty 0) (Expr.mk .Empty 1)
    9 0 0 (Expr.mk .Empty 0) 42 rfl rfl (Expr.mk .Empty 2)

/-- Log of visiting each element of a list with the meta-recording rewrite:
elements are visited left to right. -/
theorem logExpr_mapM (l : List Expr) (s : List Nat) :
    l.mapM logExpr s = .ok (l, s ++ l.map Expr.meta) := by
  induction l generalizing s with
  | nil => rw [List.mapM_nil, foldM_pure_apply]; simp
  | cons e l ih =>
    rw [List.mapM_cons,
      foldM_bind_ok (show logExpr e s = .ok (e, s ++ [e.meta]) from rfl),
      foldM_bind_ok (ih (s ++ [e.meta])), foldM_pure_apply]
    simp

/-- C7: the default fold visits children in declared field order,
deterministically.  With the logging fold (which records each visited
expression's `meta`, 1000 for a table reference and 2000 for a join filter),
folding a `Pipeline` with exprs `[A, B, C]` logs `A, B, C` in that order;
folding `Binary` logs the left operand strictly before the right; folding
`Join` logs the `with` table reference strictly before the `filter` — from
any starting log `s`, for arbitrary subtrees. -/
theorem visitation_order (A B C : Expr) (op : BinOp) (side : JoinSide)
    (w : TableRef) (fl : JoinFilter) (m : Nat) (s : List Nat) :
    fold_pipeline logFold (Pipeline.mk [A, B, C]) s
      = .ok (Pipeline.mk [A, B, C], s ++ [A.meta, B.meta, C.meta])
    ∧ fold_expr_kind logFold (.Binary op A B) s
      = .ok (.Binary op A B, s ++ [A.meta, B.meta])
    ∧ fold_transform logFold (Transform.mk (.Join side w fl) m) s
      = .ok (Transform.mk (.Join side w fl) m, s ++ [1000, 2000]) := by
  refine ⟨?_, ?_, ?_⟩
  · rw [fold_pipeline]
    have h' : logFold.fold_exprs (Pipeline.mk [A, B, C]).exprs s
        = .ok ([A, B, C], s ++ [A, B, C].map Expr.meta) :=
      logExpr_mapM [A, B, C] s
    rw [foldM_bind_ok h', foldM_pure_apply]
    simp
  · rw [fold_expr_kind]
    have hA : logFold.fold_expr A s = .ok (A, s ++ [A.meta]) := rfl
    have hB : logFold.fold_expr B (s ++ [A.meta])
        = .ok (B, s ++ [A.meta] ++ [B.meta]) := rfl
    rw [foldM_bind_ok hA, foldM_bind_ok hB, foldM_pure_apply]
    simp
  · have hW : logFold.fold_table_ref w s = .ok (w, s ++ [1000]) := rfl
    have hJ : logFold.fold_join_filter fl (s ++ [1000])
        = .ok (fl, s ++ [1000] ++ [2000]) := rfl
    have hX : (logFold.fold_table_ref w >>= fun w' =>
          logFold.fold_join_filter fl >>= fun f' =>
            pure (TransformKind.Join side w' f')) s
        = .ok (TransformKind.Join side w fl, s ++ [1000] ++ [2000]) := by
      rw [foldM_bind_ok hW, foldM_bind_ok hJ, foldM_pure_apply]
    rw [fold_transform]
    simp only [Transform.kind]
    rw [foldM_bind_ok hX, foldM_pure_apply]
    simp [Transform.meta]

end Prql
